import Mathlib

/-!
Verification development for the AI Photobook Captioner repository.

The registry of photo records lives in React state as an ordered list
(`const [photos, setPhotos] = useState<Photo[]>([])` in the App component).
Every mutation is a whole-list functional update, so each handler is embedded
as a pure function `List Photo → List Photo`.  The browser `File` handle held
by each record is opaque to every operation the claims mention and is not
represented; `src` stands for the object URL.  Machine-level details (UUID
generation, network transport) are abstracted as parameters.
-/

/-- The `Photo` record from `types.ts`.  `error?: string` becomes
`Option String`; an absent field is `none`. -/
structure Photo where
  id : String
  src : String
  title : String
  caption : String
  album : String
  tags : List String
  isLoading : Bool
  error : Option String
deriving Repr, DecidableEq

/-- The `processingProgress` state `{ completed, total }` of the App component. -/
structure Progress where
  completed : Nat
  total : Nat
deriving Repr, DecidableEq

/-- The enrichment payload `{title, caption, album, tags}` returned by
`generatePhotoDetails` on success. -/
structure PhotoDetails where
  title : String
  caption : String
  album : String
  tags : List String
deriving Repr, DecidableEq

/-- A freshly uploaded record, as built in `handleFilesSelected`:
empty title/caption/album, empty tags, `isLoading: true`, no error field. -/
def mkNewPhoto (uid srcUrl : String) : Photo :=
  { id := uid, src := srcUrl, title := "", caption := "", album := "",
    tags := [], isLoading := true, error := none }

/-- Registry effect of `handleFilesSelected`:
`setPhotos(prevPhotos => [...prevPhotos, ...newPhotos])`.  Each element of
`files` is the `(crypto.randomUUID(), URL.createObjectURL(file))` pair of one
selected file. -/
def handleFilesSelected (photos : List Photo) (files : List (String × String)) : List Photo :=
  photos ++ files.map (fun f => mkNewPhoto f.1 f.2)

/-- Progress effect of `handleFilesSelected`:
`{ completed: prev.completed, total: prev.total + newPhotos.length }`. -/
def progressOnBatchStart (p : Progress) (n : Nat) : Progress :=
  { completed := p.completed, total := p.total + n }

/-- Progress effect of the `finally` block of `processPhotoContent`:
`{ ...prev, completed: prev.completed + 1 }`. -/
def progressOnSettle (p : Progress) : Progress :=
  { p with completed := p.completed + 1 }

/-- The reset performed by the App effect once `completed >= total > 0`
has held for the delay: `setProcessingProgress({ completed: 0, total: 0 })`. -/
def progressReset : Progress :=
  { completed := 0, total := 0 }

/-- Registry effect of the success branch of `processPhotoContent`:
`p.id === newPhoto.id ? { ...p, title, caption, album, tags, isLoading: false } : p`. -/
def processPhotoContentSuccess (photos : List Photo) (uid : String) (d : PhotoDetails) :
    List Photo :=
  photos.map (fun p =>
    if p.id = uid then
      { p with title := d.title, caption := d.caption, album := d.album,
               tags := d.tags, isLoading := false }
    else p)

/-- Registry effect of the catch branch of `processPhotoContent`:
`p.id === newPhoto.id ?
  { ...p, album: 'Uncategorized', tags: [], error: errorMessage, isLoading: false } : p`. -/
def processPhotoContentFailure (photos : List Photo) (uid msg : String) : List Photo :=
  photos.map (fun p =>
    if p.id = uid then
      { p with album := "Uncategorized", tags := [], error := some msg, isLoading := false }
    else p)

/-- `handleTitleChange` in the App component. -/
def handleTitleChange (photos : List Photo) (photoId newTitle : String) : List Photo :=
  photos.map (fun p => if p.id = photoId then { p with title := newTitle } else p)

/-- `handleCaptionChange` in the App component. -/
def handleCaptionChange (photos : List Photo) (photoId newCaption : String) : List Photo :=
  photos.map (fun p => if p.id = photoId then { p with caption := newCaption } else p)

/-- `handleTagsChange` in the App component. -/
def handleTagsChange (photos : List Photo) (photoId : String) (newTags : List String) :
    List Photo :=
  photos.map (fun p => if p.id = photoId then { p with tags := newTags } else p)

/-- Registry effect of `confirmDelete`:
`setPhotos(prevPhotos => prevPhotos.filter(p => p.id !== photoToDelete))`. -/
def confirmDelete (photos : List Photo) (photoToDelete : String) : List Photo :=
  photos.filter (fun p => p.id ≠ photoToDelete)

/-- Registry effect of `confirmNewPhotobook`: `setPhotos([])`. -/
def confirmNewPhotobook (_photos : List Photo) : List Photo :=
  []

/-- JavaScript `String.prototype.trim()`: drop leading and trailing
whitespace.  Written over the character list so that it is executable by
kernel reduction (the library `String.trim` reduces through `Substring`
primitives the kernel cannot evaluate). -/
def jsTrim (s : String) : String :=
  String.mk (((s.data.dropWhile Char.isWhitespace).reverse.dropWhile Char.isWhitespace).reverse)

/-- `handleAlbumNameChange`: a blank trimmed name is a no-op on the registry;
otherwise every record with `p.album === oldName` gets the trimmed new name. -/
def handleAlbumNameChange (photos : List Photo) (oldName newName : String) : List Photo :=
  let trimmedNewName := jsTrim newName
  if trimmedNewName = "" then photos
  else photos.map (fun p => if p.album = oldName then { p with album := trimmedNewName } else p)

/-- Effect of `handleAddTag` in PhotoCard on the record's tag list:
`const newTag = tagInput.trim(); if (newTag && !photo.tags.includes(newTag))
onTagsChange(photo.id, [...photo.tags, newTag])`. -/
def handleAddTag (tags : List String) (tagInput : String) : List String :=
  let newTag := jsTrim tagInput
  if newTag ≠ "" ∧ newTag ∉ tags then tags ++ [newTag] else tags

/-- Effect of `handleRemoveTag` in PhotoCard on the record's tag list:
`photo.tags.filter(tag => tag !== tagToRemove)`. -/
def handleRemoveTag (tags : List String) (tagToRemove : String) : List String :=
  tags.filter (fun tag => tag ≠ tagToRemove)

/-- Registry effect of `handleSaveCaption` in PhotoCard:
commits `editedCaption.trim()` through `onCaptionChange` only when it differs
from the committed `photo.caption`. -/
def handleSaveCaption (photos : List Photo) (photo : Photo) (editedCaption : String) :
    List Photo :=
  if jsTrim editedCaption ≠ photo.caption then
    handleCaptionChange photos photo.id (jsTrim editedCaption)
  else photos

/-- Registry effect of `handleCancelCaption`: only local component state is
touched, the registry is untouched. -/
def handleCancelCaption (photos : List Photo) : List Photo :=
  photos

/-- Registry effect of `handleSaveTitle` in PhotoCard:
commits `editedTitle.trim()` through `onTitleChange` only when it is non-empty
and differs from the committed `photo.title`. -/
def handleSaveTitle (photos : List Photo) (photo : Photo) (editedTitle : String) : List Photo :=
  if jsTrim editedTitle ≠ "" ∧ jsTrim editedTitle ≠ photo.title then
    handleTitleChange photos photo.id (jsTrim editedTitle)
  else photos

/-- Registry effect of `handleCancelTitle`: the registry is untouched. -/
def handleCancelTitle (photos : List Photo) : List Photo :=
  photos

/-- Keyboard keys distinguished by the PhotoCard key handlers. -/
inductive Key where
  | enter : Key
  | escape : Key
  | other : Key
deriving Repr, DecidableEq

/-- The parts of a keyboard event the PhotoCard handlers inspect. -/
structure KeyEvent where
  key : Key
  metaKey : Bool
  ctrlKey : Bool
deriving Repr, DecidableEq

/-- Registry effect of `handleCaptionKeyDown`: Escape cancels, Ctrl+Enter or
Cmd+Enter saves, anything else leaves the registry alone. -/
def handleCaptionKeyDown (photos : List Photo) (photo : Photo) (editedCaption : String)
    (e : KeyEvent) : List Photo :=
  if e.key = Key.escape then handleCancelCaption photos
  else if e.key = Key.enter ∧ (e.metaKey = true ∨ e.ctrlKey = true) then
    handleSaveCaption photos photo editedCaption
  else photos

/-- Registry effect of `handleTitleKeyDown`: Enter saves, Escape cancels. -/
def handleTitleKeyDown (photos : List Photo) (photo : Photo) (editedTitle : String)
    (e : KeyEvent) : List Photo :=
  if e.key = Key.enter then handleSaveTitle photos photo editedTitle
  else if e.key = Key.escape then handleCancelTitle photos
  else photos

/-- Displayed group name of a record in the `albums` memo:
`photo.album || (photo.isLoading ? '...' : 'Uncategorized')`. -/
def displayAlbumName (photo : Photo) : String :=
  if photo.album ≠ "" then photo.album
  else if photo.isLoading then "..." else "Uncategorized"

/-- `grouped[albumName].push(photo)` with creation of a missing key: appends
the photo to the entry carrying `name`, or adds a fresh entry at the end
(JavaScript object string keys keep insertion order). -/
def groupInsert (name : String) (photo : Photo) :
    List (String × List Photo) → List (String × List Photo)
  | [] => [(name, [photo])]
  | (n, grp) :: rest =>
      if n = name then (n, grp ++ [photo]) :: rest
      else (n, grp) :: groupInsert name photo rest

/-- The grouping loop of the `albums` memo, before sorting. -/
def albumsGrouped (photos : List Photo) : List (String × List Photo) :=
  photos.foldl (fun g p => groupInsert (displayAlbumName p) p g) []

/-- The `albums` memo: group, then
`Object.entries(grouped).sort(([a], [b]) => a.localeCompare(b))`.
The locale order is a runtime parameter of the browser, so the comparison is
abstracted as a boolean relation `localeLe` on names. -/
def albums (localeLe : String → String → Bool) (photos : List Photo) :
    List (String × List Photo) :=
  (albumsGrouped photos).mergeSort (fun a b => localeLe a.1 b.1)

/-- First value bound to a key, mirroring JavaScript property lookup on the
`grouped` object (keys are unique by construction). -/
def groupLookup (g : List (String × List Photo)) (name : String) : List Photo :=
  match g with
  | [] => []
  | (n, grp) :: rest => if n = name then grp else groupLookup rest name

/-- JSON values, as produced by `JSON.parse` in `generatePhotoDetails`. -/
inductive Json where
  | null : Json
  | bool (b : Bool) : Json
  | num (n : Int) : Json
  | str (s : String) : Json
  | arr (elems : List Json) : Json
  | obj (fields : List (String × Json)) : Json
deriving Repr

/-- JavaScript property lookup `result.key` on a parsed object. -/
def jsonLookup (fields : List (String × Json)) (key : String) : Option Json :=
  match fields with
  | [] => none
  | (k, v) :: rest => if k = key then some v else jsonLookup rest key

/-- `typeof result.field === 'string'` for a looked-up property
(`none` stands for `undefined`). -/
def isJsonString : Option Json → Bool
  | some (Json.str _) => true
  | _ => false

/-- `Array.isArray(result.field)` for a looked-up property. -/
def isJsonArray : Option Json → Bool
  | some (Json.arr _) => true
  | _ => false

/-- The shape check of `generatePhotoDetails`:
`typeof result.title === 'string' && typeof result.caption === 'string' &&
typeof result.album === 'string' && Array.isArray(result.tags)`.  A non-object
parse result never passes (its properties are all `undefined`). -/
def validResponseShape : Json → Bool
  | Json.obj fields =>
      isJsonString (jsonLookup fields "title") && isJsonString (jsonLookup fields "caption") &&
      isJsonString (jsonLookup fields "album") && isJsonArray (jsonLookup fields "tags")
  | _ => false

/-- Outcome of the interaction inside `generatePhotoDetails` up to and
including `JSON.parse`: the API call or encoding threw, the response text was
not valid JSON (`JSON.parse` threw a SyntaxError), or it parsed to a value. -/
inductive AIOutcome where
  | apiError (msg : String) : AIOutcome
  | malformedJson (msg : String) : AIOutcome
  | parsed (j : Json) : AIOutcome
deriving Repr

/-- What escapes the `try` block of `generatePhotoDetails`: a value, a thrown
SyntaxError (only `JSON.parse` throws those here), or any other thrown error. -/
inductive TryOutcome where
  | ok (j : Json) : TryOutcome
  | thrownParseErr (msg : String) : TryOutcome
  | thrownOtherErr (msg : String) : TryOutcome
deriving Repr

/-- Message of the error thrown inside the `try` when the shape check fails. -/
def invalidFormatMsg : String :=
  "Invalid response format from AI."

/-- Message re-thrown by the catch block for a SyntaxError. -/
def parseFailureMsg : String :=
  "Failed to parse AI response. The format was not valid JSON."

/-- Message re-thrown by the catch block for every other error. -/
def genericFailureMsg : String :=
  "Failed to generate content from AI. Please try again."

/-- The body of the `try` block of `generatePhotoDetails`: on a parsed value,
run the shape check and either return the value or throw
`Error("Invalid response format from AI.")` (a plain Error, not a
SyntaxError). -/
def generateTryBody : AIOutcome → TryOutcome
  | AIOutcome.apiError msg => TryOutcome.thrownOtherErr msg
  | AIOutcome.malformedJson msg => TryOutcome.thrownParseErr msg
  | AIOutcome.parsed j =>
      if validResponseShape j then TryOutcome.ok j
      else TryOutcome.thrownOtherErr invalidFormatMsg

/-- The catch block of `generatePhotoDetails`: a SyntaxError becomes the
parse-failure message, every other error becomes the generic failure
message — the original message is discarded. -/
def generateCatch : TryOutcome → Except String Json
  | TryOutcome.ok j => Except.ok j
  | TryOutcome.thrownParseErr _ => Except.error parseFailureMsg
  | TryOutcome.thrownOtherErr _ => Except.error genericFailureMsg

/-- `generatePhotoDetails` as a function of the presence of the API key and
the abstract outcome of the network interaction.  The missing-key guard throws
before the `try` block, so its message is not rewritten by the catch. -/
def generatePhotoDetails (apiKeySet : Bool) (o : AIOutcome) : Except String Json :=
  if apiKeySet = false then Except.error "API_KEY environment variable is not set."
  else generateCatch (generateTryBody o)

/-- State of the processing coordinator: the visible progress counter plus the
number of enrichment requests issued but not yet settled. -/
structure CoordState where
  progress : Progress
  pending : Nat
deriving Repr, DecidableEq

/-- Events that touch the progress counter: a batch of `n` uploads starts
(`handleFilesSelected` bumps `total` and fires `n` requests), one request
settles (the `finally` block of `processPhotoContent` bumps `completed`), or
the delayed reset effect fires (enabled only while
`total > 0 && completed >= total`). -/
inductive CoordStep : CoordState → CoordState → Prop where
  | batchStart (s : CoordState) (n : Nat) :
      CoordStep s { progress := progressOnBatchStart s.progress n, pending := s.pending + n }
  | settle (s : CoordState) (h : 0 < s.pending) :
      CoordStep s { progress := progressOnSettle s.progress, pending := s.pending - 1 }
  | reset (s : CoordState) (h1 : 0 < s.progress.total)
      (h2 : s.progress.total ≤ s.progress.completed) :
      CoordStep s { progress := progressReset, pending := s.pending }

/-- Initial coordinator state: counter `{0,0}`, no outstanding request. -/
def coordInit : CoordState :=
  { progress := progressReset, pending := 0 }

/-- Coordinator states reachable from the initial state. -/
def CoordReachable (s : CoordState) : Prop :=
  Relation.ReflTransGen CoordStep coordInit s

/-- Registry transitions: every `setPhotos` call in the App component. -/
inductive RegStep : List Photo → List Photo → Prop where
  | upload (photos : List Photo) (files : List (String × String)) :
      RegStep photos (handleFilesSelected photos files)
  | enrichOk (photos : List Photo) (uid : String) (d : PhotoDetails) :
      RegStep photos (processPhotoContentSuccess photos uid d)
  | enrichFail (photos : List Photo) (uid msg : String) :
      RegStep photos (processPhotoContentFailure photos uid msg)
  | titleEdit (photos : List Photo) (photoId newTitle : String) :
      RegStep photos (handleTitleChange photos photoId newTitle)
  | captionEdit (photos : List Photo) (photoId newCaption : String) :
      RegStep photos (handleCaptionChange photos photoId newCaption)
  | tagsEdit (photos : List Photo) (photoId : String) (newTags : List String) :
      RegStep photos (handleTagsChange photos photoId newTags)
  | albumRename (photos : List Photo) (oldName newName : String) :
      RegStep photos (handleAlbumNameChange photos oldName newName)
  | deletePhoto (photos : List Photo) (photoId : String) :
      RegStep photos (confirmDelete photos photoId)
  | newPhotobook (photos : List Photo) :
      RegStep photos (confirmNewPhotobook photos)

/-- Registry states reachable from the empty registry. -/
def RegReachable (photos : List Photo) : Prop :=
  Relation.ReflTransGen RegStep [] photos

/-- Mutual exclusion of the loading flag and a recorded error: no record is
simultaneously enriching and carrying an error. -/
def ErrLoadExclusive (photos : List Photo) : Prop :=
  ∀ p ∈ photos, ¬ (p.isLoading = true ∧ p.error ≠ none)

/-- The grouping `g` is exactly the album grouping of the record list `ps`:
keys are unique, a name is a key exactly when some record displays under it,
and each key is bound to the records displaying under it, in registry order. -/
def GroupedBy (ps : List Photo) (g : List (String × List Photo)) : Prop :=
  (g.map Prod.fst).Nodup ∧
  (∀ n : String, n ∈ g.map Prod.fst ↔ n ∈ ps.map displayAlbumName) ∧
  (∀ n : String, groupLookup g n = ps.filter (fun q => displayAlbumName q = n))


/-- Coordinator bookkeeping invariant: every counted unit of `total` is either
already completed or still carried by an outstanding request. -/
def CoordInv (s : CoordState) : Prop :=
  s.progress.completed + s.pending = s.progress.total

/-- A keyed update maps to the identity when no record carries the key. -/
theorem map_update_id_absent (photos : List Photo) (uid : String) (f : Photo → Photo)
    (h : ∀ p ∈ photos, p.id ≠ uid) :
    photos.map (fun p => if p.id = uid then f p else p) = photos := by
  induction photos with
  | nil => rfl
  | cons q rest ih =>
      simp only [List.map_cons]
      rw [if_neg (h q (List.mem_cons_self q rest))]
      rw [ih (fun p hp => h p (List.mem_cons_of_mem q hp))]

/-- C2: an enrichment resolution (success or failure) arriving for an id that
is absent from the registry — in particular for an id just deleted — leaves
the registry completely unchanged; nothing is raised and nothing is
resurrected. -/
theorem c2_enrichment_after_delete_noop :
    (∀ (photos : List Photo) (uid : String) (d : PhotoDetails) (msg : String),
      (∀ p ∈ photos, p.id ≠ uid) →
        processPhotoContentSuccess photos uid d = photos ∧
        processPhotoContentFailure photos uid msg = photos) ∧
    (∀ (photos : List Photo) (uid : String) (d : PhotoDetails) (msg : String),
      processPhotoContentSuccess (confirmDelete photos uid) uid d = confirmDelete photos uid ∧
      processPhotoContentFailure (confirmDelete photos uid) uid msg =
        confirmDelete photos uid) := by
  constructor
  · intro photos uid d msg h
    exact ⟨map_update_id_absent _ _ _ h, map_update_id_absent _ _ _ h⟩
  · intro photos uid d msg
    have h : ∀ p ∈ confirmDelete photos uid, p.id ≠ uid := by
      intro p hp
      simp only [confirmDelete, List.mem_filter] at hp
      simpa using hp.2
    exact ⟨map_update_id_absent _ _ _ h, map_update_id_absent _ _ _ h⟩

/-- Witness for C2 at a concrete registry whose only record has a different id. -/
theorem c2_enrichment_after_delete_noop_witness :
    (∀ p ∈ [mkNewPhoto "a" "s"], p.id ≠ "b") ∧
    processPhotoContentSuccess [mkNewPhoto "a" "s"] "b"
        { title := "t", caption := "c", album := "A", tags := [] } = [mkNewPhoto "a" "s"] :=
  ⟨by decide,
   (c2_enrichment_after_delete_noop.1 [mkNewPhoto "a" "s"] "b"
      { title := "t", caption := "c", album := "A", tags := [] } "m" (by decide)).1⟩

/-- C3: resolving an enrichment for an id present in the registry mutates
exactly the records carrying that id.  On success the four content fields come
from the result, the loading flag is cleared and the error field is left as it
was (hence unset when it was unset); on failure the album becomes the
`"Uncategorized"` sentinel, tags are cleared, the error message is recorded and
the loading flag is cleared.  Every other record is returned unchanged, at its
position, in both cases. -/
theorem c3_apply_enrichment_pointwise (photos : List Photo) (uid : String) (d : PhotoDetails)
    (msg : String) :
    (processPhotoContentSuccess photos uid d).length = photos.length ∧
    (processPhotoContentFailure photos uid msg).length = photos.length ∧
    (∀ (i : Nat) (p : Photo), photos[i]? = some p →
      (p.id ≠ uid →
        (processPhotoContentSuccess photos uid d)[i]? = some p ∧
        (processPhotoContentFailure photos uid msg)[i]? = some p) ∧
      (p.id = uid →
        (∀ q, (processPhotoContentSuccess photos uid d)[i]? = some q →
          q.id = p.id ∧ q.src = p.src ∧ q.title = d.title ∧ q.caption = d.caption ∧
          q.album = d.album ∧ q.tags = d.tags ∧ q.isLoading = false ∧
          q.error = p.error ∧ (p.error = none → q.error = none)) ∧
        (∀ q, (processPhotoContentFailure photos uid msg)[i]? = some q →
          q.id = p.id ∧ q.src = p.src ∧ q.title = p.title ∧ q.caption = p.caption ∧
          q.album = "Uncategorized" ∧ q.tags = [] ∧ q.isLoading = false ∧
          q.error = some msg))) := by
  refine ⟨by simp [processPhotoContentSuccess], by simp [processPhotoContentFailure], ?_⟩
  intro i p hp
  constructor
  · intro hne
    constructor
    · simp [processPhotoContentSuccess, List.getElem?_map, hp, hne]
    · simp [processPhotoContentFailure, List.getElem?_map, hp, hne]
  · intro heq
    constructor
    · intro q hq
      simp [processPhotoContentSuccess, List.getElem?_map, hp, heq] at hq
      subst hq
      simp [heq]
    · intro q hq
      simp [processPhotoContentFailure, List.getElem?_map, hp, heq] at hq
      subst hq
      simp [heq]

/-- Witness for C3 on a singleton registry whose record is being enriched. -/
theorem c3_apply_enrichment_pointwise_witness :
    ([mkNewPhoto "a" "s"] : List Photo)[0]? = some (mkNewPhoto "a" "s") ∧
    (mkNewPhoto "a" "s").id = "a" ∧
    (∀ q, (processPhotoContentSuccess [mkNewPhoto "a" "s"] "a"
        { title := "t", caption := "c", album := "A", tags := ["x"] })[0]? = some q →
      q.id = (mkNewPhoto "a" "s").id ∧ q.src = (mkNewPhoto "a" "s").src ∧
      q.title = "t" ∧ q.caption = "c" ∧ q.album = "A" ∧ q.tags = ["x"] ∧
      q.isLoading = false ∧ q.error = (mkNewPhoto "a" "s").error ∧
      ((mkNewPhoto "a" "s").error = none → q.error = none)) :=
  ⟨by decide, by decide,
   (((c3_apply_enrichment_pointwise [mkNewPhoto "a" "s"] "a"
        { title := "t", caption := "c", album := "A", tags := ["x"] } "m").2.2 0
      (mkNewPhoto "a" "s") (by decide)).2 (by decide)).1⟩

/-- C6: renaming an album to a blank (whitespace-only) name leaves the
registry unchanged; otherwise every record whose album equals `oldName`
exactly gets the trimmed new name while everything else — other records and
the other fields of renamed records — is unchanged, and renaming
`"Nature"` to `"Family"` lands every record of either album under
`"Family"`. -/
theorem c6_rename_album (photos : List Photo) (oldName newName : String) :
    (jsTrim newName = "" → handleAlbumNameChange photos oldName newName = photos) ∧
    (jsTrim newName ≠ "" →
      (handleAlbumNameChange photos oldName newName).length = photos.length ∧
      (∀ (i : Nat) (p : Photo), photos[i]? = some p →
        (p.album = oldName →
          (handleAlbumNameChange photos oldName newName)[i]? =
            some { p with album := jsTrim newName }) ∧
        (p.album ≠ oldName →
          (handleAlbumNameChange photos oldName newName)[i]? = some p))) ∧
    (∀ (i : Nat) (p : Photo), photos[i]? = some p →
      ∀ q, (handleAlbumNameChange photos "Nature" "Family")[i]? = some q →
        (q.album = "Family" ↔ (p.album = "Nature" ∨ p.album = "Family"))) := by
  refine ⟨?_, ?_, ?_⟩
  · intro h
    simp [handleAlbumNameChange, h]
  · intro h
    constructor
    · simp [handleAlbumNameChange, h]
    · intro i p hp
      constructor
      · intro halb
        simp [handleAlbumNameChange, h, List.getElem?_map, hp, halb]
      · intro halb
        simp [handleAlbumNameChange, h, List.getElem?_map, hp, halb]
  · intro i p hp q hq
    have htrim : jsTrim "Family" = "Family" := by decide
    simp only [handleAlbumNameChange, htrim] at hq
    rw [if_neg (by decide : ¬ ("Family" : String) = "")] at hq
    simp only [List.getElem?_map, hp] at hq
    by_cases halb : p.album = "Nature"
    · simp [halb] at hq
      subst hq
      simp [halb]
    · simp [halb] at hq
      subst hq
      simp [halb]

/-- Witness for C6: renaming `"Nature"` to `" Family "` on a two-record
registry relabels exactly the `"Nature"` record with the trimmed name. -/
theorem c6_rename_album_witness :
    jsTrim " Family " ≠ "" ∧
    ({ mkNewPhoto "a" "s" with album := "Nature" } : Photo).album = "Nature" ∧
    ([{ mkNewPhoto "a" "s" with album := "Nature" }] : List Photo)[0]? =
      some { mkNewPhoto "a" "s" with album := "Nature" } ∧
    (handleAlbumNameChange [{ mkNewPhoto "a" "s" with album := "Nature" }]
        "Nature" " Family ")[0]? =
      some { { mkNewPhoto "a" "s" with album := "Nature" } with album := jsTrim " Family " } :=
  ⟨by decide, by decide, by decide,
   (((c6_rename_album [{ mkNewPhoto "a" "s" with album := "Nature" }] "Nature"
        " Family ").2.1 (by decide)).2 0 _ (by decide)).1 (by decide)⟩

/-- C7: adding an already-present tag (after trimming, case-sensitive) is a
no-op, so a second add of `"sunset"` leaves exactly one entry and tag addition
never introduces a duplicate into a duplicate-free list; removing a tag that
is not present leaves the list unchanged. -/
theorem c7_tag_addition_removal (tags : List String) (tagInput tagToRemove : String) :
    (jsTrim tagInput ∈ tags → handleAddTag tags tagInput = tags) ∧
    ("sunset" ∉ tags →
      List.count "sunset" (handleAddTag (handleAddTag tags "sunset") "sunset") = 1) ∧
    (tags.Nodup → (handleAddTag tags tagInput).Nodup) ∧
    (tagToRemove ∉ tags → handleRemoveTag tags tagToRemove = tags) := by
  have hsun : jsTrim "sunset" = "sunset" := by decide
  refine ⟨?_, ?_, ?_, ?_⟩
  · intro h
    simp [handleAddTag, h]
  · intro h
    have h1 : handleAddTag tags "sunset" = tags ++ ["sunset"] := by
      simp [handleAddTag, hsun, h]
    have h2 : handleAddTag (tags ++ ["sunset"]) "sunset" = tags ++ ["sunset"] := by
      simp [handleAddTag, hsun]
    rw [h1, h2, List.count_append]
    simp [List.count_eq_zero.mpr h]
  · intro h
    by_cases hcond : jsTrim tagInput ≠ "" ∧ jsTrim tagInput ∉ tags
    · simp only [handleAddTag, if_pos hcond]
      rw [List.nodup_append]
      exact ⟨h, List.nodup_singleton _, by
        intro a ha hb
        rw [List.mem_singleton] at hb
        subst hb
        exact hcond.2 ha⟩
    · simp [handleAddTag, hcond]
      exact h
  · intro h
    rw [handleRemoveTag, List.filter_eq_self]
    intro a ha
    have hne : a ≠ tagToRemove := fun hcontra => h (hcontra ▸ ha)
    simpa using hne

/-- Witness for C7: a double add of `"sunset"` to `["beach"]` yields one entry. -/
theorem c7_tag_addition_removal_witness :
    "sunset" ∉ (["beach"] : List String) ∧
    List.count "sunset" (handleAddTag (handleAddTag ["beach"] "sunset") "sunset") = 1 :=
  ⟨by decide, (c7_tag_addition_removal ["beach"] "x" "y").2.1 (by decide)⟩

/-- C8: confirming a caption edit commits the trimmed scratch value through
the registry update only when it differs from the committed value; a title
edit additionally requires the trimmed value to be non-empty; cancelling —
the explicit cancel action or the Escape key — never mutates the registry. -/
theorem c8_edit_commit_cancel (photos : List Photo) (photo : Photo) (scratch : String)
    (e : KeyEvent) :
    (jsTrim scratch ≠ photo.caption →
      handleSaveCaption photos photo scratch =
        handleCaptionChange photos photo.id (jsTrim scratch)) ∧
    (jsTrim scratch = photo.caption → handleSaveCaption photos photo scratch = photos) ∧
    (jsTrim scratch ≠ "" → jsTrim scratch ≠ photo.title →
      handleSaveTitle photos photo scratch =
        handleTitleChange photos photo.id (jsTrim scratch)) ∧
    ((jsTrim scratch = "" ∨ jsTrim scratch = photo.title) →
      handleSaveTitle photos photo scratch = photos) ∧
    handleCancelCaption photos = photos ∧
    handleCancelTitle photos = photos ∧
    (e.key = Key.escape →
      handleCaptionKeyDown photos photo scratch e = photos ∧
      handleTitleKeyDown photos photo scratch e = photos) := by
  refine ⟨?_, ?_, ?_, ?_, rfl, rfl, ?_⟩
  · intro h
    simp [handleSaveCaption, h]
  · intro h
    simp [handleSaveCaption, h]
  · intro h1 h2
    simp [handleSaveTitle, h1, h2]
  · intro h
    rcases h with h | h
    · simp [handleSaveTitle, h]
    · simp [handleSaveTitle, h]
  · intro h
    constructor
    · simp [handleCaptionKeyDown, h, handleCancelCaption]
    · simp [handleTitleKeyDown, h, handleCancelTitle]

/-- Witness for C8: committing the caption scratch value `" hello "` on a
fresh record (committed caption empty) writes the trimmed value. -/
theorem c8_edit_commit_cancel_witness :
    jsTrim " hello " ≠ (mkNewPhoto "a" "s").caption ∧
    handleSaveCaption [mkNewPhoto "a" "s"] (mkNewPhoto "a" "s") " hello " =
      handleCaptionChange [mkNewPhoto "a" "s"] (mkNewPhoto "a" "s").id (jsTrim " hello ") :=
  ⟨by decide,
   (c8_edit_commit_cancel [mkNewPhoto "a" "s"] (mkNewPhoto "a" "s") " hello "
      { key := Key.other, metaKey := false, ctrlKey := false }).1 (by decide)⟩

/-- C10: an album rename whose old name is one of the displayed placeholder
labels (`"Uncategorized"` or `"..."`) never touches a record whose stored
album is the empty string, because the rename compares stored album strings
exactly; such a record therefore keeps displaying under its placeholder. -/
theorem c10_placeholder_rename_skips_unset (photos : List Photo) (newName : String)
    (i : Nat) (p : Photo) (hp : photos[i]? = some p) (hempty : p.album = "") :
    (handleAlbumNameChange photos "Uncategorized" newName)[i]? = some p ∧
    (handleAlbumNameChange photos "..." newName)[i]? = some p ∧
    displayAlbumName p = (if p.isLoading then "..." else "Uncategorized") := by
  have huncat : p.album ≠ "Uncategorized" := by rw [hempty]; decide
  have hdots : p.album ≠ "..." := by rw [hempty]; decide
  refine ⟨?_, ?_, ?_⟩
  · by_cases h : jsTrim newName = ""
    · simp [handleAlbumNameChange, h, hp]
    · simp [handleAlbumNameChange, h, List.getElem?_map, hp, huncat]
  · by_cases h : jsTrim newName = ""
    · simp [handleAlbumNameChange, h, hp]
    · simp [handleAlbumNameChange, h, List.getElem?_map, hp, hdots]
  · simp [displayAlbumName, hempty]

/-- Witness for C10: renaming the `"Uncategorized"` group leaves a record
with an empty stored album untouched. -/
theorem c10_placeholder_rename_skips_unset_witness :
    ([mkNewPhoto "a" "s"] : List Photo)[0]? = some (mkNewPhoto "a" "s") ∧
    (mkNewPhoto "a" "s").album = "" ∧
    (handleAlbumNameChange [mkNewPhoto "a" "s"] "Uncategorized" "Family")[0]? =
      some (mkNewPhoto "a" "s") :=
  ⟨by decide, by decide,
   (c10_placeholder_rename_skips_unset [mkNewPhoto "a" "s"] "Family" 0 (mkNewPhoto "a" "s")
      (by decide) (by decide)).1⟩

/-- Counterexample to C5: the response `{"title": "t"}` parses as JSON but
fails the shape check, yet the error the client raises for it carries exactly
the same generic message as an API failure — the internal
`"Invalid response format from AI."` error is swallowed by the catch-all
handler, so a malformed-shape response is not distinguishable from other
enrichment failures. -/
theorem c5_shape_error_not_distinguishable :
    validResponseShape (Json.obj [("title", Json.str "t")]) = false ∧
    generatePhotoDetails true (AIOutcome.parsed (Json.obj [("title", Json.str "t")])) =
      Except.error genericFailureMsg ∧
    generatePhotoDetails true (AIOutcome.apiError "network error") =
      Except.error genericFailureMsg ∧
    generatePhotoDetails true (AIOutcome.parsed (Json.obj [("title", Json.str "t")])) =
      generatePhotoDetails true (AIOutcome.apiError "network error") :=
  ⟨rfl, rfl, rfl, rfl⟩

/-- C5 (amended): the client validates the response shape — the four fields
present, `title`/`caption`/`album` strings and `tags` an array — and raises an
error for every malformed response.  A response that is not valid JSON yields
the distinct parse-failure message, but a syntactically valid response with an
invalid shape is re-reported with the same generic message as any other
enrichment failure. -/
theorem c5_response_validation (j : Json) (m1 m2 : String)
    (fields : List (String × Json)) :
    (validResponseShape j = true →
      generatePhotoDetails true (AIOutcome.parsed j) = Except.ok j) ∧
    (validResponseShape j = false →
      generatePhotoDetails true (AIOutcome.parsed j) = Except.error genericFailureMsg) ∧
    generatePhotoDetails true (AIOutcome.malformedJson m1) = Except.error parseFailureMsg ∧
    generatePhotoDetails true (AIOutcome.apiError m2) = Except.error genericFailureMsg ∧
    parseFailureMsg ≠ genericFailureMsg ∧
    (validResponseShape (Json.obj fields) = true ↔
      (isJsonString (jsonLookup fields "title") = true ∧
       isJsonString (jsonLookup fields "caption") = true ∧
       isJsonString (jsonLookup fields "album") = true ∧
       isJsonArray (jsonLookup fields "tags") = true)) := by
  refine ⟨?_, ?_, rfl, rfl, by decide, ?_⟩
  · intro h
    simp [generatePhotoDetails, generateTryBody, generateCatch, h]
  · intro h
    simp [generatePhotoDetails, generateTryBody, generateCatch, h]
  · simp only [validResponseShape, Bool.and_eq_true]
    tauto

/-- Witness for C5 (amended): a well-shaped response is returned as parsed. -/
theorem c5_response_validation_witness :
    validResponseShape (Json.obj [("title", Json.str "t"), ("caption", Json.str "c"),
      ("album", Json.str "A"), ("tags", Json.arr [Json.str "x"])]) = true ∧
    generatePhotoDetails true (AIOutcome.parsed (Json.obj [("title", Json.str "t"),
      ("caption", Json.str "c"), ("album", Json.str "A"),
      ("tags", Json.arr [Json.str "x"])])) =
      Except.ok (Json.obj [("title", Json.str "t"), ("caption", Json.str "c"),
        ("album", Json.str "A"), ("tags", Json.arr [Json.str "x"])]) :=
  ⟨rfl,
   (c5_response_validation (Json.obj [("title", Json.str "t"), ("caption", Json.str "c"),
      ("album", Json.str "A"), ("tags", Json.arr [Json.str "x"])]) "m" "m" []).1 rfl⟩

/-- One coordinator step keeps the bookkeeping invariant. -/
theorem coordStep_inv {s t : CoordState} (hs : CoordInv s) (st : CoordStep s t) :
    CoordInv t := by
  cases st with
  | batchStart n =>
      simp only [CoordInv, progressOnBatchStart] at *
      omega
  | settle h =>
      simp only [CoordInv, progressOnSettle] at *
      omega
  | reset h1 h2 =>
      simp only [CoordInv, progressReset] at *
      omega

/-- Every reachable coordinator state satisfies the bookkeeping invariant. -/
theorem coordReachable_inv {s : CoordState} (h : CoordReachable s) : CoordInv s := by
  unfold CoordReachable at h
  induction h with
  | refl => simp [CoordInv, coordInit, progressReset]
  | tail _ hbc ih => exact coordStep_inv ih hbc

/-- C1: a batch of `n` uploads raises `total` by exactly `n` and leaves
`completed` unchanged at that moment; each settling enrichment raises
`completed` by exactly one (and leaves `total` alone); the reset writes
`{0,0}`; and `completed <= total` holds in every coordinator state reachable
from the initial one, across batch starts, settlements and resets. -/
theorem c1_progress_counter :
    (∀ (p : Progress) (n : Nat),
      (progressOnBatchStart p n).total = p.total + n ∧
      (progressOnBatchStart p n).completed = p.completed) ∧
    (∀ p : Progress,
      (progressOnSettle p).completed = p.completed + 1 ∧
      (progressOnSettle p).total = p.total) ∧
    progressReset = { completed := 0, total := 0 } ∧
    (∀ s : CoordState, CoordReachable s → s.progress.completed ≤ s.progress.total) := by
  refine ⟨fun p n => ⟨rfl, rfl⟩, fun p => ⟨rfl, rfl⟩, rfl, ?_⟩
  intro s hs
  have h := coordReachable_inv hs
  unfold CoordInv at h
  omega

/-- Witness for C1: the state after one batch of two uploads is reachable and
satisfies `completed <= total`. -/
theorem c1_progress_counter_witness :
    CoordReachable { progress := { completed := 0, total := 2 }, pending := 2 } ∧
    ({ progress := { completed := 0, total := 2 }, pending := 2 } : CoordState).progress.completed ≤
      ({ progress := { completed := 0, total := 2 }, pending := 2 } : CoordState).progress.total := by
  have hreach : CoordReachable { progress := { completed := 0, total := 2 }, pending := 2 } :=
    Relation.ReflTransGen.single (CoordStep.batchStart coordInit 2)
  exact ⟨hreach, c1_progress_counter.2.2.2 _ hreach⟩

/-- One registry step keeps the loading/error mutual exclusion. -/
theorem regStep_exclusive {a b : List Photo} (ha : ErrLoadExclusive a) (st : RegStep a b) :
    ErrLoadExclusive b := by
  cases st with
  | upload files =>
      intro p hp
      simp only [handleFilesSelected, List.mem_append] at hp
      rcases hp with h | h
      · exact ha p h
      · rcases List.mem_map.mp h with ⟨f, _, rfl⟩
        simp [mkNewPhoto]
  | enrichOk uid d =>
      intro p hp
      rcases List.mem_map.mp hp with ⟨q, hq, rfl⟩
      by_cases h : q.id = uid
      · simp [h]
      · simpa [h] using ha q hq
  | enrichFail uid msg =>
      intro p hp
      rcases List.mem_map.mp hp with ⟨q, hq, rfl⟩
      by_cases h : q.id = uid
      · simp [h]
      · simpa [h] using ha q hq
  | titleEdit photoId newTitle =>
      intro p hp
      rcases List.mem_map.mp hp with ⟨q, hq, rfl⟩
      by_cases h : q.id = photoId
      · simpa [h] using ha q hq
      · simpa [h] using ha q hq
  | captionEdit photoId newCaption =>
      intro p hp
      rcases List.mem_map.mp hp with ⟨q, hq, rfl⟩
      by_cases h : q.id = photoId
      · simpa [h] using ha q hq
      · simpa [h] using ha q hq
  | tagsEdit photoId newTags =>
      intro p hp
      rcases List.mem_map.mp hp with ⟨q, hq, rfl⟩
      by_cases h : q.id = photoId
      · simpa [h] using ha q hq
      · simpa [h] using ha q hq
  | albumRename oldName newName =>
      intro p hp
      simp only [handleAlbumNameChange] at hp
      by_cases htrim : jsTrim newName = ""
      · rw [if_pos htrim] at hp
        exact ha p hp
      · rw [if_neg htrim] at hp
        rcases List.mem_map.mp hp with ⟨q, hq, rfl⟩
        by_cases h : q.album = oldName
        · simpa [h] using ha q hq
        · simpa [h] using ha q hq
  | deletePhoto photoId =>
      intro p hp
      exact ha p (List.mem_of_mem_filter hp)
  | newPhotobook =>
      intro p hp
      cases hp

/-- Every reachable registry state satisfies the mutual exclusion. -/
theorem regReachable_exclusive {photos : List Photo} (h : RegReachable photos) :
    ErrLoadExclusive photos := by
  unfold RegReachable at h
  induction h with
  | refl =>
      intro p hp
      cases hp
  | tail _ hbc ih => exact regStep_exclusive ih hbc

/-- C4: no record ever has `isLoading = true` together with a present error;
every registry operation (upload, enrichment success, enrichment failure,
field edits, album rename, delete, clear) preserves the exclusion, and it
holds in every registry state reachable from the empty registry. -/
theorem c4_loading_error_exclusive :
    (∀ a b : List Photo, ErrLoadExclusive a → RegStep a b → ErrLoadExclusive b) ∧
    (∀ photos : List Photo, RegReachable photos → ErrLoadExclusive photos) :=
  ⟨fun _ _ ha st => regStep_exclusive ha st, fun _ h => regReachable_exclusive h⟩

/-- Witness for C4: the registry holding one freshly uploaded record is
reachable and satisfies the exclusion. -/
theorem c4_loading_error_exclusive_witness :
    RegReachable [mkNewPhoto "a" "s"] ∧ ErrLoadExclusive [mkNewPhoto "a" "s"] := by
  have hreach : RegReachable [mkNewPhoto "a" "s"] :=
    Relation.ReflTransGen.single (RegStep.upload [] [("a", "s")])
  exact ⟨hreach, c4_loading_error_exclusive.2 _ hreach⟩

/-- Looking a name up in the grouping after one insertion: the inserted
photo is appended to its own bucket and every other bucket is untouched. -/
theorem groupLookup_groupInsert (name m : String) (photo : Photo)
    (g : List (String × List Photo)) :
    groupLookup (groupInsert name photo g) m =
      if m = name then groupLookup g m ++ [photo] else groupLookup g m := by
  induction g with
  | nil =>
      by_cases h : m = name
      · simp [groupInsert, groupLookup, h]
      · have h2 : ¬ name = m := fun hc => h hc.symm
        simp [groupInsert, groupLookup, h, h2]
  | cons pr rest ih =>
      obtain ⟨n, grp⟩ := pr
      by_cases hn : n = name
      · subst hn
        by_cases hm : n = m
        · subst hm
          simp [groupInsert, groupLookup]
        · have hm2 : ¬ m = n := fun hc => hm hc.symm
          simp [groupInsert, groupLookup, hm, hm2]
      · by_cases hm : n = m
        · subst hm
          simp [groupInsert, groupLookup, hn]
        · simp [groupInsert, groupLookup, hn, hm, ih]

/-- Keys after one insertion: unchanged when the name is already a key,
otherwise the name is appended at the end. -/
theorem keys_groupInsert (name : String) (photo : Photo) (g : List (String × List Photo)) :
    (groupInsert name photo g).map Prod.fst =
      if name ∈ g.map Prod.fst then g.map Prod.fst else g.map Prod.fst ++ [name] := by
  induction g with
  | nil => simp [groupInsert]
  | cons pr rest ih =>
      obtain ⟨n, grp⟩ := pr
      by_cases hn : n = name
      · subst hn
        simp [groupInsert]
      · have hn2 : ¬ name = n := fun hc => hn hc.symm
        by_cases hmem : name ∈ rest.map Prod.fst
        · simp [groupInsert, hn, ih, hmem, hn2]
        · simp [groupInsert, hn, ih, hmem, hn2]

/-- Insertion keeps the keys duplicate-free. -/
theorem keys_nodup_groupInsert (name : String) (photo : Photo)
    (g : List (String × List Photo)) (h : (g.map Prod.fst).Nodup) :
    ((groupInsert name photo g).map Prod.fst).Nodup := by
  rw [keys_groupInsert]
  by_cases hmem : name ∈ g.map Prod.fst
  · simpa [hmem] using h
  · rw [if_neg hmem, List.nodup_append]
    refine ⟨h, List.nodup_singleton _, ?_⟩
    intro a ha hb
    rw [List.mem_singleton] at hb
    subst hb
    exact hmem ha

/-- One grouping-loop iteration preserves the `GroupedBy` invariant. -/
theorem groupedBy_groupInsert {ps : List Photo} {g : List (String × List Photo)} (p : Photo)
    (h : GroupedBy ps g) :
    GroupedBy (ps ++ [p]) (groupInsert (displayAlbumName p) p g) := by
  obtain ⟨h1, h2, h3⟩ := h
  refine ⟨keys_nodup_groupInsert _ _ _ h1, ?_, ?_⟩
  · intro n
    rw [keys_groupInsert, List.map_append]
    by_cases hmem : displayAlbumName p ∈ g.map Prod.fst
    · rw [if_pos hmem]
      simp only [List.map_cons, List.map_nil, List.mem_append, List.mem_singleton]
      constructor
      · intro hn
        exact Or.inl ((h2 n).mp hn)
      · rintro (hn | rfl)
        · exact (h2 n).mpr hn
        · exact hmem
    · rw [if_neg hmem]
      simp only [List.mem_append, List.mem_singleton, List.map_cons, List.map_nil]
      constructor
      · rintro (hn | hn)
        · exact Or.inl ((h2 n).mp hn)
        · exact Or.inr hn
      · rintro (hn | rfl)
        · exact Or.inl ((h2 n).mpr hn)
        · exact Or.inr rfl
  · intro n
    rw [groupLookup_groupInsert, List.filter_append]
    by_cases hn : n = displayAlbumName p
    · rw [if_pos hn, h3 n]
      simp [List.filter, hn.symm]
    · rw [if_neg hn, h3 n]
      have h4 : ¬ displayAlbumName p = n := fun hc => hn hc.symm
      simp [List.filter, h4]

/-- The grouping loop of the `albums` memo preserves the invariant over any
suffix of records still to be processed. -/
theorem albumsGrouped_loop (extra : List Photo) (ps : List Photo)
    (g : List (String × List Photo)) (h : GroupedBy ps g) :
    GroupedBy (ps ++ extra)
      (extra.foldl (fun acc q => groupInsert (displayAlbumName q) q acc) g) := by
  induction extra generalizing ps g with
  | nil => simpa using h
  | cons q rest ih =>
      simp only [List.foldl_cons]
      have hstep := groupedBy_groupInsert q h
      have hres := ih (ps ++ [q]) _ hstep
      simpa [List.append_assoc] using hres

/-- The pre-sort grouping is exactly the album grouping of the registry. -/
theorem albumsGrouped_groupedBy (photos : List Photo) :
    GroupedBy photos (albumsGrouped photos) := by
  have h0 : GroupedBy [] [] := by
    refine ⟨List.nodup_nil, by simp, ?_⟩
    intro n
    simp [groupLookup]
  simpa using albumsGrouped_loop photos [] [] h0

/-- With duplicate-free keys, membership of a pair determines its bucket. -/
theorem mem_eq_groupLookup {g : List (String × List Photo)}
    (hnd : (g.map Prod.fst).Nodup) {pr : String × List Photo} (hpr : pr ∈ g) :
    pr.2 = groupLookup g pr.1 := by
  induction g with
  | nil => cases hpr
  | cons hd rest ih =>
      obtain ⟨n, grp⟩ := hd
      simp only [List.map_cons, List.nodup_cons] at hnd
      rcases List.mem_cons.mp hpr with rfl | hmem
      · simp [groupLookup]
      · have hn : ¬ n = pr.1 := by
          intro hcontra
          have hin : pr.1 ∈ rest.map Prod.fst := List.mem_map.mpr ⟨pr, hmem, rfl⟩
          rw [← hcontra] at hin
          exact hnd.1 hin
        simp only [groupLookup, if_neg hn]
        exact ih hnd.2 hmem

/-- C9: the album projection is a pure function of the registry.  For any
total transitive locale comparison, `albums` is a permutation of the grouping
of the registry, that grouping buckets each record under its displayed album
name (its stored album, or the `"..."` placeholder while enriching, or
`"Uncategorized"` otherwise) with unique group names covering exactly the
displayed names, every group of the sorted output lists exactly the records
displaying under its name in registry order, and the output group names are
ordered by the locale comparison. -/
theorem c9_album_projection (localeLe : String → String → Bool)
    (htrans : ∀ a b c, localeLe a b = true → localeLe b c = true → localeLe a c = true)
    (htotal : ∀ a b, (localeLe a b || localeLe b a) = true)
    (photos : List Photo) :
    (albums localeLe photos).Perm (albumsGrouped photos) ∧
    GroupedBy photos (albumsGrouped photos) ∧
    (∀ pr ∈ albums localeLe photos,
      pr.2 = photos.filter (fun q => displayAlbumName q = pr.1)) ∧
    ((albums localeLe photos).map Prod.fst).Pairwise (fun a b => localeLe a b = true) := by
  have hg := albumsGrouped_groupedBy photos
  have hperm : (albums localeLe photos).Perm (albumsGrouped photos) :=
    List.mergeSort_perm _ _
  refine ⟨hperm, hg, ?_, ?_⟩
  · intro pr hpr
    have hmem : pr ∈ albumsGrouped photos := hperm.mem_iff.mp hpr
    rw [mem_eq_groupLookup hg.1 hmem, hg.2.2 pr.1]
  · have hs := @List.sorted_mergeSort (String × List Photo)
      (fun a b => localeLe a.1 b.1)
      (fun a b c hab hbc => htrans a.1 b.1 c.1 hab hbc)
      (fun a b => htotal a.1 b.1) (albumsGrouped photos)
    exact List.Pairwise.map Prod.fst (fun a b hab => hab) hs

/-- Witness for C9 with the lexicographic string order as the locale
comparison on a singleton registry. -/
theorem c9_album_projection_witness :
    (∀ a b c : String, decide (a ≤ b) = true → decide (b ≤ c) = true →
      decide (a ≤ c) = true) ∧
    (∀ a b : String, (decide (a ≤ b) || decide (b ≤ a)) = true) ∧
    (albums (fun a b => decide (a ≤ b)) [mkNewPhoto "a" "s"]).Perm
      (albumsGrouped [mkNewPhoto "a" "s"]) := by
  have h1 : ∀ a b c : String, decide (a ≤ b) = true → decide (b ≤ c) = true →
      decide (a ≤ c) = true := by
    intro a b c hab hbc
    simp only [decide_eq_true_eq] at hab hbc ⊢
    exact le_trans hab hbc
  have h2 : ∀ a b : String, (decide (a ≤ b) || decide (b ≤ a)) = true := by
    intro a b
    simpa using le_total a b
  exact ⟨h1, h2,
    (c9_album_projection (fun a b => decide (a ≤ b)) h1 h2 [mkNewPhoto "a" "s"]).1⟩
